import Mathlib

/-!
Verification development for the code_assistant repository core:
the bounded history store (`app/history.py`) and the Ollama code
generator (`app/generator.py`), modelled as a shallow embedding.
Network interactions are modelled through an abstract client record
together with explicit call traces; Python exceptions are modelled
with `Option` (`none` = the call raised).
-/

set_option maxHeartbeats 1000000

namespace CodeAssistant

/-- Entry of the history log (the `HistoryEntry` dataclass of
`app/history.py`); the timestamp is modelled as an abstract tick. -/
structure HistoryEntry where
  instructions : String
  code : String
  output_code : String
  raw_response : String
  timestamp : Nat
  deriving DecidableEq

/-- Default capacity of the history store (`HistoryHandler.DEFAULT_MAX_LENGTH`). -/
def DEFAULT_MAX_LENGTH : Nat := 10

/-- State of `HistoryHandler`: the configured capacity and the bounded
deque contents (oldest first). -/
structure HistoryHandler where
  historyMaxLength : Nat
  history : List HistoryEntry
  deriving DecidableEq

/-- `HistoryHandler.__init__`: non-positive requested capacities are
replaced by the documented default; the deque starts empty. -/
def HistoryHandler.init (maxHistoryLength : Int) : HistoryHandler :=
  if maxHistoryLength ≤ 0 then
    { historyMaxLength := DEFAULT_MAX_LENGTH, history := [] }
  else
    { historyMaxLength := maxHistoryLength.toNat, history := [] }

/-- `HistoryHandler.add_new_entry`: append to the bounded deque; when the
deque already holds `historyMaxLength` entries the oldest one is evicted
(`collections.deque` with `maxlen`). -/
def HistoryHandler.add_new_entry (h : HistoryHandler) (entry : HistoryEntry) : HistoryHandler :=
  if h.history.length < h.historyMaxLength then
    { h with history := h.history ++ [entry] }
  else
    { h with history := h.history.tail ++ [entry] }

/-- `HistoryHandler.get_history`: snapshot of the stored entries in
insertion (oldest-to-newest) order. -/
def HistoryHandler.get_history (h : HistoryHandler) : List HistoryEntry :=
  h.history

/-- Concrete history entry used by witnesses. -/
def entryW1 : HistoryEntry := { instructions := "i1", code := "c1", output_code := "o1", raw_response := "r1", timestamp := 0 }

/-- Second concrete history entry used by witnesses. -/
def entryW2 : HistoryEntry := { instructions := "i2", code := "c2", output_code := "o2", raw_response := "r2", timestamp := 1 }

/-! ### The code extractor (`OllamaCodeGenerator._extract_code`)

Python strings are embedded as `List Char`.  `splitOn` mirrors Python's
`str.split(sep)` for a non-empty separator: occurrences of the separator
are located by a non-overlapping left-to-right scan.  `strCount` mirrors
`str.count(sub)` (for non-empty `sub` both use the same scan, so
`s.count(t) = len(s.split(t)) - 1`). -/

/-- Strings of the Python source, embedded as their character lists. -/
abbrev Str := List Char

/-- Fuel-indexed worker for `splitOn`; the fuel is always instantiated
with the length of the string, which makes the recursion structural. -/
def splitOnAux (pat : Str) : Nat → Str → List Str
  | _, [] => [[]]
  | 0, s => [s]
  | fuel + 1, a :: rest =>
    if pat.isPrefixOf (a :: rest) then
      [] :: splitOnAux pat fuel (rest.drop (pat.length - 1))
    else
      match splitOnAux pat fuel rest with
      | [] => [[a]]
      | r :: rs => (a :: r) :: rs

/-- Python `s.split(pat)` for a non-empty separator `pat`. -/
def splitOn (s pat : Str) : List Str := splitOnAux pat s.length s

/-- Index of the leftmost occurrence of `pat` in `s` (`none` if absent);
used to state the spec's "next delimiter" wording. -/
def idxOfFirst (pat : Str) : Str → Option Nat
  | [] => if pat.isEmpty then some 0 else none
  | a :: rest =>
    if pat.isPrefixOf (a :: rest) then some 0
    else (idxOfFirst pat rest).map (fun n => n + 1)

/-- Python `s.count(pat)` for non-empty `pat`. -/
def strCount (s pat : Str) : Nat := (splitOn s pat).length - 1

/-- `OllamaCodeGenerator.PYTHON_START_TOKEN`. -/
def PYTHON_START_TOKEN : Str := "```python\n".data

/-- `OllamaCodeGenerator.CODE_TOKEN`. -/
def CODE_TOKEN : Str := "```".data

/-- Python's substring test `pat in s`. -/
def strIn (pat : Str) : Str → Bool
  | [] => pat.isEmpty
  | a :: rest => pat.isPrefixOf (a :: rest) || strIn pat rest

/-- Lines 157-158 of `generator.py`: if the selected span starts with a
line break, drop exactly that one character. -/
def stripNL (s : Str) : Str :=
  if (['\n'].isPrefixOf s) then s.drop 1 else s

/-- Lines 152-155 of `generator.py`: the span selected by the two
split-based branches (before the leading-newline strip). -/
def rawSpan (outputCode : Str) : Str :=
  if strIn PYTHON_START_TOKEN outputCode then
    (splitOn ((splitOn outputCode PYTHON_START_TOKEN).getD 1 []) CODE_TOKEN).getD 0 []
  else
    (splitOn ((splitOn outputCode CODE_TOKEN).getD 1 []) CODE_TOKEN).getD 0 []

/-- `OllamaCodeGenerator._extract_code`. -/
def extractCode (responseText : Str) : Str :=
  if strCount responseText CODE_TOKEN < 2 then responseText
  else stripNL (rawSpan responseText)

/-- `_extract_code` lifted back to `String`, as used by `generate_code`. -/
def extractCodeStr (s : String) : String := String.mk (extractCode s.data)

/-- Modelled from the spec's words (§4.4 / C5): "the substring between
the end of that tagged opener and the next bare fence delimiter" — the
span starting at the end of the first occurrence of the tagged opener
and ending at the next occurrence of the delimiter (end of string when
there is none). -/
def spanTaggedSpec (s : Str) : Str :=
  match idxOfFirst PYTHON_START_TOKEN s with
  | none => s
  | some i =>
    match idxOfFirst CODE_TOKEN (s.drop (i + PYTHON_START_TOKEN.length)) with
    | none => s.drop (i + PYTHON_START_TOKEN.length)
    | some j => (s.drop (i + PYTHON_START_TOKEN.length)).take j

/-- Modelled from the spec's words (§4.4 / C5): "the substring between
the first and second bare delimiter" — the span between the end of the
first occurrence of the delimiter and the next occurrence after it. -/
def spanBareSpec (s : Str) : Str :=
  match idxOfFirst CODE_TOKEN s with
  | none => s
  | some i =>
    match idxOfFirst CODE_TOKEN (s.drop (i + CODE_TOKEN.length)) with
    | none => s.drop (i + CODE_TOKEN.length)
    | some j => (s.drop (i + CODE_TOKEN.length)).take j

/-- The segment of the input lying between the end of the first tagged
opener and the start of the following tagged opener (to the end of the
string when the opener occurs only once). -/
def spanTaggedSegment (s : Str) : Str :=
  match idxOfFirst PYTHON_START_TOKEN s with
  | none => s
  | some i =>
    match idxOfFirst PYTHON_START_TOKEN (s.drop (i + PYTHON_START_TOKEN.length)) with
    | none => s.drop (i + PYTHON_START_TOKEN.length)
    | some k => (s.drop (i + PYTHON_START_TOKEN.length)).take k

/-- The tagged-opener span as the code actually computes it: the segment
before the following tagged opener, truncated at the first delimiter
occurrence lying wholly inside that segment. -/
def spanTaggedAmended (s : Str) : Str :=
  match idxOfFirst CODE_TOKEN (spanTaggedSegment s) with
  | none => spanTaggedSegment s
  | some j => (spanTaggedSegment s).take j

/-! ### The generator (`OllamaCodeGenerator`)

The Ollama client is abstracted by an oracle record: `listResult` is the
outcome of `client.list()` (`none` = the call raises), `pullSucceeds m`
says whether `client.pull(m)` succeeds, and `genResult m p` is the outcome
of `client.generate(model=m, prompt=p)` (`none` = the call raises).  Every
operation additionally returns the list of network calls it performed. -/

/-- A network interaction with the Ollama service. -/
inductive NetCall where
  | listCall : NetCall
  | pullCall : String → NetCall
  | genCall : String → String → NetCall
  deriving DecidableEq

/-- Oracle for the Ollama client used by a run. -/
structure Client where
  listResult : Option (List String)
  pullSucceeds : String → Bool
  genResult : String → String → Option String

/-- `OllamaCodeGenerator.DEFAULT_MODEL`. -/
def DEFAULT_MODEL : String := "llama3.2:1b"

/-- Mutable state of an `OllamaCodeGenerator` instance: the selected model
(`_ollama_model`), the readiness flag (`_is_model_initialized`) and the
optional custom prompt function (`_custom_prompt_fn`, `none` result of the
function = the function raises). -/
structure OllamaCodeGenerator where
  ollamaModel : String
  isModelInit : Bool
  customPromptFn : Option (String → String → Option String)

/-- `_get_available_models` / `get_available_model_names`: one `list()`
network call; an exception propagates. -/
def getAvailableModelNames (c : Client) : Option (List String) × List NetCall :=
  (c.listResult, [NetCall.listCall])

/-- `is_service_available`: the listing query with every exception caught. -/
def isServiceAvailable (c : Client) : Bool × List NetCall :=
  match getAvailableModelNames c with
  | (some _, t) => (true, t)
  | (none, t) => (false, t)

/-- `is_model_available`: the availability query (whose exceptions
propagate — it is outside the `try`), then, on a missing model, a pull
attempt whose failure is caught and turned into `false`. -/
def isModelAvailable (c : Client) (modelName : String) : Option Bool × List NetCall :=
  match getAvailableModelNames c with
  | (none, t) => (none, t)
  | (some names, t) =>
    if modelName ∈ names then (some true, t)
    else if c.pullSucceeds modelName then (some true, t ++ [NetCall.pullCall modelName])
    else (some false, t ++ [NetCall.pullCall modelName])

/-- `_init_model`: activate the configured model, falling back to the
default model when the configured one is unavailable and distinct from the
default.  Returns the readiness result, the updated state and the trace. -/
def initModel (c : Client) (g : OllamaCodeGenerator) :
    Option Bool × OllamaCodeGenerator × List NetCall :=
  match isModelAvailable c g.ollamaModel with
  | (none, t) => (none, g, t)
  | (some true, t) => (some true, g, t)
  | (some false, t) =>
    if g.ollamaModel = DEFAULT_MODEL then (some false, g, t)
    else
      match isModelAvailable c DEFAULT_MODEL with
      | (none, t2) => (none, g, t ++ t2)
      | (some true, t2) => (some true, { g with ollamaModel := DEFAULT_MODEL }, t ++ t2)
      | (some false, t2) => (some false, g, t ++ t2)

/-- `OllamaCodeGenerator.__init__`: a falsy (absent or empty) model name is
replaced by the default; the service liveness probe always runs, and model
activation runs only when the service is reachable.  `none` in the first
component means the constructor raised. -/
def mkGenerator (c : Client) (ollamaModel : Option String)
    (promptFunction : Option (String → String → Option String)) :
    Option OllamaCodeGenerator × List NetCall :=
  let m := match ollamaModel with
    | none => DEFAULT_MODEL
    | some s => if s = "" then DEFAULT_MODEL else s
  let g0 : OllamaCodeGenerator :=
    { ollamaModel := m, isModelInit := false, customPromptFn := promptFunction }
  match isServiceAvailable c with
  | (false, t) => (some g0, t)
  | (true, t) =>
    match initModel c g0 with
    | (none, _, t2) => (none, t ++ t2)
    | (some b, g1, t2) => (some { g1 with isModelInit := b }, t ++ t2)

/-- `get_current_model_name`. -/
def getCurrentModelName (g : OllamaCodeGenerator) : String := g.ollamaModel

/-- `_default_prompt_fn`. -/
def defaultPromptFn (userInstruction userCode : String) : String :=
  "Based on this instructions:\n" ++ userInstruction ++ "\n and provided python code:\n"
    ++ userCode ++ "\n generate python code."

/-- `_get_prompt`: try the custom prompt function when present; any
exception from it is caught and the default prompt is used instead. -/
def getPrompt (g : OllamaCodeGenerator) (userInstruction userCode : String) : String :=
  match g.customPromptFn with
  | none => defaultPromptFn userInstruction userCode
  | some f =>
    match f userInstruction userCode with
    | some p => p
    | none => defaultPromptFn userInstruction userCode

/-- `user_code = (user_code or "(no code provided)")`: absent or empty
code is replaced by the placeholder. -/
def effectiveCode (userCode : Option String) : String :=
  match userCode with
  | none => "(no code provided)"
  | some s => if s = "" then "(no code provided)" else s

/-- `generate_code`: when the flag is unset, `_init_model()` is called but
its result is discarded (only an exception from it propagates); then the
inference call is issued unconditionally and its response is returned
together with the extracted code. -/
def generateCode (c : Client) (g : OllamaCodeGenerator) (userInstruction : String)
    (userCode : Option String) :
    Option (String × String) × OllamaCodeGenerator × List NetCall :=
  match (if g.isModelInit then (some true, g, []) else initModel c g) with
  | (none, g1, t1) => (none, g1, t1)
  | (some _, g1, t1) =>
    match c.genResult g1.ollamaModel (getPrompt g1 userInstruction (effectiveCode userCode)) with
    | none =>
      (none, g1, t1 ++ [NetCall.genCall g1.ollamaModel
        (getPrompt g1 userInstruction (effectiveCode userCode))])
    | some responseText =>
      (some (responseText, extractCodeStr responseText), g1,
        t1 ++ [NetCall.genCall g1.ollamaModel
          (getPrompt g1 userInstruction (effectiveCode userCode))])

/-- Availability probes (list and pull calls, as opposed to inference). -/
def isProbe : NetCall → Bool
  | NetCall.genCall _ _ => false
  | _ => true

/-- Number of availability probes in a trace. -/
def probeCount (t : List NetCall) : Nat := (t.filter isProbe).length

/-- Client whose availability query raises (service down). -/
def clientListRaises : Client :=
  { listResult := none, pullSucceeds := fun _ => false, genResult := fun _ _ => none }

/-- Client that reports no models, cannot pull anything, but answers
inference calls. -/
def clientModelMissing : Client :=
  { listResult := some [], pullSucceeds := fun _ => false, genResult := fun _ _ => some "ok" }

/-- Client with the default model present and working inference. -/
def clientReady : Client :=
  { listResult := some [DEFAULT_MODEL], pullSucceeds := fun _ => false,
    genResult := fun _ _ => some "x" }

/-- Client listing only the default model, with pulls failing. -/
def clientGhost : Client :=
  { listResult := some ["llama3.2:1b"], pullSucceeds := fun _ => false,
    genResult := fun _ _ => none }

/-- Generator state with the default model selected and the readiness flag
unset (as after construction with the service unreachable). -/
def genUninit : OllamaCodeGenerator :=
  { ollamaModel := DEFAULT_MODEL, isModelInit := false, customPromptFn := none }

/-- Generator state configured with a model that does not exist. -/
def genGhost : OllamaCodeGenerator :=
  { ollamaModel := "ghost-model", isModelInit := false, customPromptFn := none }

/-- First `generate_code` call of the C3 scenario. -/
def runGen1 : Option (String × String) × OllamaCodeGenerator × List NetCall :=
  generateCode clientReady genUninit "i" none

/-- Second `generate_code` call of the C3 scenario. -/
def runGen2 : Option (String × String) × OllamaCodeGenerator × List NetCall :=
  generateCode clientReady runGen1.2.1 "i" none

/-- Third `generate_code` call of the C3 scenario. -/
def runGen3 : Option (String × String) × OllamaCodeGenerator × List NetCall :=
  generateCode clientReady runGen2.2.1 "i" none

theorem add_new_entry_maxLength (h : HistoryHandler) (e : HistoryEntry) :
    (h.add_new_entry e).historyMaxLength = h.historyMaxLength := by
  unfold HistoryHandler.add_new_entry
  split <;> rfl

theorem foldl_add_maxLength (es : List HistoryEntry) :
    ∀ h : HistoryHandler,
      (es.foldl HistoryHandler.add_new_entry h).historyMaxLength = h.historyMaxLength := by
  induction es with
  | nil => intro h; rfl
  | cons x es ih =>
    intro h
    simp only [List.foldl_cons]
    rw [ih, add_new_entry_maxLength]

theorem foldl_add_history (N : Nat) (hN : 1 ≤ N) (es : List HistoryEntry) :
    ∀ q : List HistoryEntry, q.length ≤ N →
      (es.foldl HistoryHandler.add_new_entry { historyMaxLength := N, history := q }).history
        = (q ++ es).drop (q.length + es.length - N) := by
  induction es with
  | nil =>
    intro q hq
    simp only [List.foldl_nil, List.append_nil, List.length_nil, Nat.add_zero]
    have hz : q.length - N = 0 := by omega
    rw [hz, List.drop_zero]
  | cons x es ih =>
    intro q hq
    simp only [List.foldl_cons]
    by_cases hlt : q.length < N
    · have hstep : HistoryHandler.add_new_entry { historyMaxLength := N, history := q } x
          = { historyMaxLength := N, history := q ++ [x] } := by
        unfold HistoryHandler.add_new_entry
        split
        · rfl
        · rename_i hcond
          exact absurd hlt hcond
      rw [hstep, ih (q ++ [x]) (by simp only [List.length_append, List.length_singleton]; omega)]
      have e1 : (q ++ [x]) ++ es = q ++ x :: es := by simp
      have e2 : (q ++ [x]).length + es.length - N = q.length + (x :: es).length - N := by
        simp only [List.length_append, List.length_singleton, List.length_cons, List.length_nil]
        omega
      rw [e1, e2]
    · have hqne : q ≠ [] := by
        intro hc
        rw [hc] at hlt
        simp at hlt
        omega
      obtain ⟨qh, qt, rfl⟩ := List.exists_cons_of_ne_nil hqne
      have hq' : qt.length + 1 = N := by
        simp only [List.length_cons] at hq hlt
        omega
      have hstep : HistoryHandler.add_new_entry { historyMaxLength := N, history := qh :: qt } x
          = { historyMaxLength := N, history := qt ++ [x] } := by
        unfold HistoryHandler.add_new_entry
        split
        · rename_i hcond
          exact absurd hcond hlt
        · rfl
      rw [hstep, ih (qt ++ [x]) (by simp only [List.length_append, List.length_singleton]; omega)]
      have e1 : (qt ++ [x]) ++ es = qt ++ x :: es := by simp
      have e2 : (qt ++ [x]).length + es.length - N = es.length := by
        simp only [List.length_append, List.length_singleton]
        omega
      have e3 : (qh :: qt).length + (x :: es).length - N = es.length + 1 := by
        simp only [List.length_cons]
        omega
      have e4 : (qh :: qt) ++ x :: es = qh :: (qt ++ x :: es) := by simp
      rw [e1, e2, e3, e4, List.drop_succ_cons]

theorem init_pos (N : Nat) (hN : 1 ≤ N) :
    HistoryHandler.init (N : Int) = { historyMaxLength := N, history := [] } := by
  unfold HistoryHandler.init
  have : ¬((N : Int) ≤ 0) := by
    simp
    omega
  simp [this]

/-- C1: for a `HistoryHandler` of capacity `N ≥ 1` and any sequence of
`K > N` inserted entries, `get_history()` returns exactly the last `N`
inserted entries in insertion order (the first `K − N` are evicted), and
the stored length never exceeds `N` after any prefix of the inserts. -/
theorem claim1_history_bounded_eviction (N : Nat) (hN : 1 ≤ N)
    (es : List HistoryEntry) (hK : N < es.length) :
    ((es.foldl HistoryHandler.add_new_entry (HistoryHandler.init (N : Int))).get_history
        = es.drop (es.length - N))
    ∧ ((es.foldl HistoryHandler.add_new_entry (HistoryHandler.init (N : Int))).get_history.length = N)
    ∧ (∀ k : Nat,
        (((es.take k).foldl HistoryHandler.add_new_entry (HistoryHandler.init (N : Int))).get_history.length ≤ N)) := by
  rw [init_pos N hN]
  have hmain := foldl_add_history N hN es [] (by simp)
  simp only [List.nil_append, List.length_nil, Nat.zero_add] at hmain
  unfold HistoryHandler.get_history
  refine ⟨hmain, ?_, ?_⟩
  · rw [hmain, List.length_drop]
    omega
  · intro k
    have h := foldl_add_history N hN (es.take k) [] (by simp)
    simp only [List.nil_append, List.length_nil, Nat.zero_add] at h
    rw [h, List.length_drop]
    omega

theorem claim1_witness :
    (([entryW1, entryW2].foldl HistoryHandler.add_new_entry (HistoryHandler.init (1 : Int))).get_history
      = [entryW2]) := by
  have h := claim1_history_bounded_eviction 1 (by decide) [entryW1, entryW2] (by decide)
  simpa using h.1

theorem take_isPrefix (n : Nat) (l : Str) : l.take n <+: l :=
  List.take_prefix n l

theorem isPrefixOf_iff (l1 l2 : Str) : l1.isPrefixOf l2 = true ↔ l1 <+: l2 :=
  List.isPrefixOf_iff_prefix

theorem splitOnAux_fuel (pat : Str) :
    ∀ fuel fuel' s, s.length ≤ fuel → s.length ≤ fuel' →
      splitOnAux pat fuel s = splitOnAux pat fuel' s := by
  intro fuel
  induction fuel with
  | zero =>
    intro fuel' s hs hs'
    have hnil : s = [] := by
      cases s with
      | nil => rfl
      | cons a r => simp at hs
    subst hnil
    cases fuel' <;> rfl
  | succ f ih =>
    intro fuel' s hs hs'
    cases s with
    | nil => cases fuel' <;> rfl
    | cons a rest =>
      cases fuel' with
      | zero => simp at hs'
      | succ f' =>
        simp only [splitOnAux]
        by_cases hp : pat.isPrefixOf (a :: rest) = true
        · simp only [hp, if_true]
          have hd : (rest.drop (pat.length - 1)).length ≤ f := by
            rw [List.length_drop]
            simp only [List.length_cons] at hs
            omega
          have hd' : (rest.drop (pat.length - 1)).length ≤ f' := by
            rw [List.length_drop]
            simp only [List.length_cons] at hs'
            omega
          rw [ih f' _ hd hd']
        · rw [if_neg hp, if_neg hp]
          have hr : rest.length ≤ f := by
            simp only [List.length_cons] at hs
            omega
          have hr' : rest.length ≤ f' := by
            simp only [List.length_cons] at hs'
            omega
          rw [ih f' rest hr hr']

theorem splitOn_nil (pat : Str) : splitOn [] pat = [[]] := rfl

theorem splitOn_cons (pat : Str) (a : Char) (rest : Str) :
    splitOn (a :: rest) pat =
      if pat.isPrefixOf (a :: rest) then
        [] :: splitOn (rest.drop (pat.length - 1)) pat
      else
        match splitOn rest pat with
        | [] => [[a]]
        | r :: rs => (a :: r) :: rs := by
  show splitOnAux pat (rest.length + 1) (a :: rest) = _
  simp only [splitOnAux]
  by_cases hp : pat.isPrefixOf (a :: rest) = true
  · simp only [hp, if_true]
    have := splitOnAux_fuel pat rest.length (rest.drop (pat.length - 1)).length
      (rest.drop (pat.length - 1)) (by rw [List.length_drop]; omega) le_rfl
    rw [this]
    rfl
  · simp only [hp, if_false]
    rfl

theorem splitOn_eq (pat : Str) (hpat : pat ≠ []) (s : Str) :
    splitOn s pat =
      match idxOfFirst pat s with
      | none => [s]
      | some i => s.take i :: splitOn (s.drop (i + pat.length)) pat := by
  induction s with
  | nil =>
    have hE : pat.isEmpty = false := by
      cases pat with
      | nil => exact absurd rfl hpat
      | cons p pr => rfl
    simp [splitOn_nil, idxOfFirst, hE]
  | cons a rest ih =>
    rw [splitOn_cons]
    by_cases hp : pat.isPrefixOf (a :: rest) = true
    · have hidx : idxOfFirst pat (a :: rest) = some 0 := by
        simp [idxOfFirst, hp]
      rw [hidx]
      simp only [hp, if_true, List.take_zero]
      obtain ⟨p0, pr, rfl⟩ := List.exists_cons_of_ne_nil hpat
      have hdrop : (a :: rest).drop (0 + (p0 :: pr).length) = rest.drop ((p0 :: pr).length - 1) := by
        simp only [List.length_cons, Nat.zero_add, Nat.add_sub_cancel, List.drop_succ_cons]
      rw [hdrop]
    · have hidx : idxOfFirst pat (a :: rest) = (idxOfFirst pat rest).map (fun n => n + 1) := by
        simp [idxOfFirst, hp]
      rw [hidx, if_neg hp, ih]
      cases hr : idxOfFirst pat rest with
      | none => simp [hr]
      | some i =>
        simp only [hr, Option.map_some']
        have ht : (a :: rest).take (i + 1) = a :: rest.take i := List.take_succ_cons
        have hd : (a :: rest).drop (i + 1 + pat.length) = rest.drop (i + pat.length) := by
          have harith : i + 1 + pat.length = (i + pat.length) + 1 := by omega
          rw [harith, List.drop_succ_cons]
        rw [ht, hd]

theorem splitOn_ne_nil (s pat : Str) : splitOn s pat ≠ [] := by
  cases s with
  | nil => simp [splitOn_nil]
  | cons a rest =>
    rw [splitOn_cons]
    split
    · simp
    · cases h : splitOn rest pat <;> simp

theorem idxOfFirst_some_isPrefix (pat : Str) :
    ∀ s i, idxOfFirst pat s = some i → pat <+: s.drop i := by
  intro s
  induction s with
  | nil =>
    intro i h
    simp only [idxOfFirst] at h
    by_cases hE : pat.isEmpty = true
    · simp only [hE, if_true, Option.some_inj] at h
      subst h
      simp [List.isEmpty_iff.mp hE]
    · simp [hE] at h
  | cons a rest ih =>
    intro i h
    simp only [idxOfFirst] at h
    by_cases hp : pat.isPrefixOf (a :: rest) = true
    · simp only [hp, if_true, Option.some_inj] at h
      subst h
      simpa using (isPrefixOf_iff _ _).mp hp
    · rw [if_neg hp] at h
      obtain ⟨j, hj, hji⟩ := Option.map_eq_some'.mp h
      subst hji
      show pat <+: (a :: rest).drop (j + 1)
      rw [List.drop_succ_cons]
      exact ih j hj

theorem idxOfFirst_some_min (pat : Str) :
    ∀ s i, idxOfFirst pat s = some i → ∀ r, r < i → ¬ pat <+: s.drop r := by
  intro s
  induction s with
  | nil =>
    intro i h r hr
    simp only [idxOfFirst] at h
    by_cases hE : pat.isEmpty = true
    · simp only [hE, if_true, Option.some_inj] at h
      omega
    · simp [hE] at h
  | cons a rest ih =>
    intro i h r hr
    simp only [idxOfFirst] at h
    by_cases hp : pat.isPrefixOf (a :: rest) = true
    · simp only [hp, if_true, Option.some_inj] at h
      omega
    · rw [if_neg hp] at h
      obtain ⟨j, hj, hji⟩ := Option.map_eq_some'.mp h
      subst hji
      cases r with
      | zero =>
        intro hpre
        exact hp ((isPrefixOf_iff _ _).mpr (by simpa using hpre))
      | succ r' =>
        rw [List.drop_succ_cons]
        exact ih j hj r' (by omega)

theorem idxOfFirst_none (pat : Str) (hpat : pat ≠ []) :
    ∀ s, idxOfFirst pat s = none → ∀ r, ¬ pat <+: s.drop r := by
  intro s
  induction s with
  | nil =>
    intro _ r hpre
    rw [List.drop_nil] at hpre
    exact hpat (List.prefix_nil.mp hpre)
  | cons a rest ih =>
    intro h r hpre
    simp only [idxOfFirst] at h
    by_cases hp : pat.isPrefixOf (a :: rest) = true
    · simp [hp] at h
    · rw [if_neg hp] at h
      rw [Option.map_eq_none'] at h
      cases r with
      | zero => exact hp ((isPrefixOf_iff _ _).mpr (by simpa using hpre))
      | succ r' =>
        rw [List.drop_succ_cons] at hpre
        exact ih h r' hpre

theorem strIn_eq_isSome (pat : Str) : ∀ s, strIn pat s = (idxOfFirst pat s).isSome := by
  intro s
  induction s with
  | nil =>
    by_cases hE : pat.isEmpty = true <;> simp [strIn, idxOfFirst, hE]
  | cons a rest ih =>
    by_cases hp : pat.isPrefixOf (a :: rest) = true <;>
      simp [strIn, idxOfFirst, hp, ih]

theorem splitOn_getD_zero (pat : Str) (hpat : pat ≠ []) (s : Str) :
    (splitOn s pat).getD 0 [] =
      match idxOfFirst pat s with
      | none => s
      | some i => s.take i := by
  rw [splitOn_eq pat hpat s]
  cases hidx : idxOfFirst pat s <;> simp

theorem splitOn_getD_one (pat : Str) (hpat : pat ≠ []) (s : Str) (i : Nat)
    (hidx : idxOfFirst pat s = some i) :
    (splitOn s pat).getD 1 [] =
      match idxOfFirst pat (s.drop (i + pat.length)) with
      | none => s.drop (i + pat.length)
      | some j => (s.drop (i + pat.length)).take j := by
  rw [splitOn_eq pat hpat s, hidx]
  simp only [List.getD_cons_succ]
  exact splitOn_getD_zero pat hpat _

theorem idxOfFirst_take_none (pat : Str) (hpat : pat ≠ []) (s : Str) (i : Nat)
    (hidx : idxOfFirst pat s = some i) : idxOfFirst pat (s.take i) = none := by
  cases h : idxOfFirst pat (s.take i) with
  | none => rfl
  | some r =>
    exfalso
    have h1 : pat <+: (s.take i).drop r := idxOfFirst_some_isPrefix pat _ r h
    rw [List.drop_take i r s] at h1
    by_cases hri : r < i
    · exact idxOfFirst_some_min pat s i hidx r hri (h1.trans (take_isPrefix _ _))
    · have hz : i - r = 0 := by omega
      rw [hz, List.take_zero] at h1
      exact hpat (List.prefix_nil.mp h1)

theorem idxOfFirst_some_of_two_le (pat : Str) (hpat : pat ≠ []) (s : Str)
    (h : 2 ≤ (splitOn s pat).length) : ∃ i, idxOfFirst pat s = some i := by
  cases hidx : idxOfFirst pat s with
  | none =>
    rw [splitOn_eq pat hpat s, hidx] at h
    simp at h
  | some i => exact ⟨i, rfl⟩

theorem splitOn_length_drop (pat : Str) (hpat : pat ≠ []) (s : Str) (i : Nat)
    (hidx : idxOfFirst pat s = some i) :
    (splitOn s pat).length = (splitOn (s.drop (i + pat.length)) pat).length + 1 := by
  rw [splitOn_eq pat hpat s, hidx]
  simp

theorem splitOn_mem_isInfix (pat : Str) (hpat : pat ≠ []) :
    ∀ n s, s.length ≤ n → ∀ part ∈ splitOn s pat, part <:+: s := by
  intro n
  induction n with
  | zero =>
    intro s hs part hmem
    have hnil : s = [] := by
      cases s with
      | nil => rfl
      | cons a r => simp at hs
    subst hnil
    simp [splitOn_nil] at hmem
    simp [hmem]
  | succ n ih =>
    intro s hs part hmem
    cases hidx : idxOfFirst pat s with
    | none =>
      rw [splitOn_eq pat hpat s, hidx] at hmem
      simp at hmem
      simp [hmem]
    | some i =>
      have hsne : s ≠ [] := by
        intro hc
        subst hc
        have hE : pat.isEmpty = false := by
          cases pat with
          | nil => exact absurd rfl hpat
          | cons p pr => rfl
        simp [idxOfFirst, hE] at hidx
      rw [splitOn_eq pat hpat s, hidx] at hmem
      simp only [List.mem_cons] at hmem
      rcases hmem with rfl | hmem
      · exact (take_isPrefix i s).isInfix
      · have hplen : 1 ≤ pat.length := by
          cases pat with
          | nil => exact absurd rfl hpat
          | cons p pr => simp
        have hslen : 1 ≤ s.length := by
          cases s with
          | nil => exact absurd rfl hsne
          | cons a r => simp
        have hlen : (s.drop (i + pat.length)).length ≤ n := by
          rw [List.length_drop]
          omega
        exact (ih _ hlen part hmem).trans ((List.drop_suffix _ _).isInfix)

theorem getD_mem_or_default (l : List Str) (i : Nat) :
    l.getD i [] ∈ l ∨ l.getD i [] = [] := by
  by_cases h : i < l.length
  · left
    rw [List.getD_eq_getElem l [] h]
    exact List.getElem_mem h
  · right
    exact List.getD_eq_default l [] (by omega)

theorem stripNL_isInfix (t : Str) : stripNL t <:+: t := by
  unfold stripNL
  split
  · exact (List.drop_suffix 1 t).isInfix
  · exact List.infix_rfl

theorem doubleSplit_isInfix (s pat1 pat2 : Str) (h1 : pat1 ≠ []) (h2 : pat2 ≠ []) :
    (splitOn ((splitOn s pat1).getD 1 []) pat2).getD 0 [] <:+: s := by
  have hx : (splitOn s pat1).getD 1 [] <:+: s := by
    rcases getD_mem_or_default (splitOn s pat1) 1 with hm | hd
    · exact splitOn_mem_isInfix pat1 h1 s.length s le_rfl _ hm
    · rw [hd]
      exact List.nil_infix
  have hy : (splitOn ((splitOn s pat1).getD 1 []) pat2).getD 0 [] <:+: (splitOn s pat1).getD 1 [] := by
    rcases getD_mem_or_default (splitOn ((splitOn s pat1).getD 1 []) pat2) 0 with hm | hd
    · exact splitOn_mem_isInfix pat2 h2 _ _ le_rfl _ hm
    · rw [hd]
      exact List.nil_infix
  exact hy.trans hx

theorem extract_tagged (s : Str) (hcount : ¬ strCount s CODE_TOKEN < 2)
    (htag : strIn PYTHON_START_TOKEN s = true) :
    extractCode s = stripNL (spanTaggedAmended s) := by
  have hPYne : PYTHON_START_TOKEN ≠ [] := by decide
  have hCODEne : CODE_TOKEN ≠ [] := by decide
  have hsome : (idxOfFirst PYTHON_START_TOKEN s).isSome := by
    rw [← strIn_eq_isSome]
    exact htag
  obtain ⟨i, hi⟩ := Option.isSome_iff_exists.mp hsome
  unfold extractCode rawSpan
  rw [if_neg hcount, if_pos htag]
  congr 1
  rw [splitOn_getD_one PYTHON_START_TOKEN hPYne s i hi]
  have hseg : (match idxOfFirst PYTHON_START_TOKEN (s.drop (i + PYTHON_START_TOKEN.length)) with
      | none => s.drop (i + PYTHON_START_TOKEN.length)
      | some j => (s.drop (i + PYTHON_START_TOKEN.length)).take j) = spanTaggedSegment s := by
    unfold spanTaggedSegment
    rw [hi]
  rw [hseg, splitOn_getD_zero CODE_TOKEN hCODEne]
  unfold spanTaggedAmended
  rfl

theorem extract_bare (s : Str) (hcount : ¬ strCount s CODE_TOKEN < 2)
    (htag : strIn PYTHON_START_TOKEN s = false) :
    extractCode s = stripNL (spanBareSpec s) := by
  have hCODEne : CODE_TOKEN ≠ [] := by decide
  have hlen3 : 3 ≤ (splitOn s CODE_TOKEN).length := by
    unfold strCount at hcount
    have hne := splitOn_ne_nil s CODE_TOKEN
    have : 1 ≤ (splitOn s CODE_TOKEN).length := List.length_pos.mpr hne
    omega
  obtain ⟨i, hi⟩ := idxOfFirst_some_of_two_le CODE_TOKEN hCODEne s (by omega)
  have hlen2 : 2 ≤ (splitOn (s.drop (i + CODE_TOKEN.length)) CODE_TOKEN).length := by
    have := splitOn_length_drop CODE_TOKEN hCODEne s i hi
    omega
  obtain ⟨j, hj⟩ := idxOfFirst_some_of_two_le CODE_TOKEN hCODEne _ hlen2
  have htag' : ¬ (strIn PYTHON_START_TOKEN s = true) := by
    rw [htag]
    simp
  unfold extractCode rawSpan
  rw [if_neg hcount, if_neg htag']
  congr 1
  rw [splitOn_getD_one CODE_TOKEN hCODEne s i hi, hj]
  have hnone : idxOfFirst CODE_TOKEN ((s.drop (i + CODE_TOKEN.length)).take j) = none :=
    idxOfFirst_take_none CODE_TOKEN hCODEne _ j hj
  rw [splitOn_getD_zero CODE_TOKEN hCODEne, hnone]
  unfold spanBareSpec
  simp only [hi, hj]

/-- C5, counterexample: on the input `"` + `"``python\nA`````python\n"`
(overlapping backtick runs), the code returns the segment `"A``"`, while
the claim's "substring between the end of the tagged opener and the next
bare delimiter" is `"A"` — the next delimiter occurrence starts inside the
segment but ends past it, so split-based extraction keeps the two trailing
backticks.  Hence the claim's tagged-opener case is false as stated. -/
theorem claim5_counterexample :
    (¬ strCount ("```python\nA`````python\n".data) CODE_TOKEN < 2)
    ∧ strIn PYTHON_START_TOKEN ("```python\nA`````python\n".data) = true
    ∧ extractCode ("```python\nA`````python\n".data) = "A``".data
    ∧ stripNL (spanTaggedSpec ("```python\nA`````python\n".data)) = "A".data
    ∧ extractCode ("```python\nA`````python\n".data)
        ≠ stripNL (spanTaggedSpec ("```python\nA`````python\n".data)) :=
  ⟨by decide, by decide, by decide, by decide, by decide⟩

/-- C5, amended: `_extract_code` follows the case analysis — fewer than two
delimiter occurrences returns the input unchanged; with the tagged opener
present it takes the substring between the end of the first tagged opener
and the first delimiter occurrence lying wholly before the next tagged
opener (the whole segment when there is none); otherwise it takes the
substring between the first and second bare delimiter — each fenced case
followed by the single-leading-newline strip. -/
theorem claim5_extract_case_analysis (s : Str) :
    (strCount s CODE_TOKEN < 2 → extractCode s = s)
    ∧ (¬ strCount s CODE_TOKEN < 2 → strIn PYTHON_START_TOKEN s = true →
        extractCode s = stripNL (spanTaggedAmended s))
    ∧ (¬ strCount s CODE_TOKEN < 2 → strIn PYTHON_START_TOKEN s = false →
        extractCode s = stripNL (spanBareSpec s)) := by
  refine ⟨fun h => ?_, extract_tagged s, extract_bare s⟩
  unfold extractCode
  rw [if_pos h]

theorem claim5_witness :
    extractCode ("```\nx = 1\n```".data) = stripNL (spanBareSpec ("```\nx = 1\n```".data)) :=
  (claim5_extract_case_analysis ("```\nx = 1\n```".data)).2.2 (by decide) (by decide)

/-- C6: when the selected span begins with two line breaks, `_extract_code`
removes exactly the first one — the second newline is kept and no other
leading whitespace is stripped. -/
theorem claim6_strip_one_newline (s t : Str)
    (hcount : ¬ strCount s CODE_TOKEN < 2)
    (hspan : rawSpan s = '\n' :: '\n' :: t) :
    extractCode s = '\n' :: t := by
  unfold extractCode
  rw [if_neg hcount, hspan]
  unfold stripNL
  rw [if_pos (by simp [List.isPrefixOf])]
  rfl

theorem claim6_witness :
    extractCode ("```\n\nreturn 1```".data) = '\n' :: "return 1".data :=
  claim6_strip_one_newline ("```\n\nreturn 1```".data) ("return 1".data) (by decide) (by decide)

theorem initModel_no_genCall (c : Client) (g : OllamaCodeGenerator) (m p : String) :
    NetCall.genCall m p ∉ (initModel c g).2.2 := by
  rcases g with ⟨gm, gi, gf⟩
  cases hl : c.listResult with
  | none => simp [initModel, isModelAvailable, getAvailableModelNames, hl]
  | some names =>
    by_cases hmem : gm ∈ names
    · simp [initModel, isModelAvailable, getAvailableModelNames, hl, hmem]
    · cases hp : c.pullSucceeds gm with
      | true => simp [initModel, isModelAvailable, getAvailableModelNames, hl, hmem, hp]
      | false =>
        by_cases hd : gm = DEFAULT_MODEL
        · subst hd
          simp [initModel, isModelAvailable, getAvailableModelNames, hl, hmem, hp]
        · by_cases hmem2 : DEFAULT_MODEL ∈ names
          · simp [initModel, isModelAvailable, getAvailableModelNames, hl, hmem, hp, hd, hmem2]
          · cases hp2 : c.pullSucceeds DEFAULT_MODEL <;>
              simp [initModel, isModelAvailable, getAvailableModelNames, hl, hmem, hp, hd, hmem2, hp2]

theorem initModel_keeps_default (c : Client) (g : OllamaCodeGenerator)
    (hm : g.ollamaModel = DEFAULT_MODEL) :
    (initModel c g).2.1 = g := by
  rcases g with ⟨gm, gi, gf⟩
  have hm' : gm = DEFAULT_MODEL := hm
  subst hm'
  cases hl : c.listResult with
  | none => simp [initModel, isModelAvailable, getAvailableModelNames, hl]
  | some names =>
    by_cases hmem : DEFAULT_MODEL ∈ names
    · simp [initModel, isModelAvailable, getAvailableModelNames, hl, hmem]
    · cases hp : c.pullSucceeds DEFAULT_MODEL <;>
        simp [initModel, isModelAvailable, getAvailableModelNames, hl, hmem, hp]

/-- C2, counterexample: with the service reachable but the model missing
and unpullable, the readiness attempt returns false, yet `generate_code`
still issues the network inference call and even succeeds.  The readiness
result at `generator.py:178` is discarded and nothing short-circuits. -/
theorem claim2_counterexample :
    (initModel clientModelMissing genUninit).fst = some false
    ∧ (generateCode clientModelMissing genUninit "i" none).fst
        = some ("ok", extractCodeStr "ok")
    ∧ NetCall.genCall DEFAULT_MODEL (defaultPromptFn "i" "(no code provided)")
        ∈ (generateCode clientModelMissing genUninit "i" none).2.2 := by
  refine ⟨rfl, rfl, by decide⟩

/-- C2, amended: when the readiness attempt at the start of `generate_code`
returns false, `generate_code` does not short-circuit — it issues the
network inference call anyway; only when the readiness attempt itself
raises does `generate_code` fail without issuing an inference call. -/
theorem claim2_unavailable_no_shortcircuit (c : Client) (g : OllamaCodeGenerator)
    (i : String) (uc : Option String) (hinit : g.isModelInit = false) :
    ((initModel c g).fst = some false →
      NetCall.genCall (initModel c g).2.1.ollamaModel
          (getPrompt (initModel c g).2.1 i (effectiveCode uc))
        ∈ (generateCode c g i uc).2.2)
    ∧ ((initModel c g).fst = none →
      (generateCode c g i uc).fst = none
      ∧ ∀ m p, NetCall.genCall m p ∉ (generateCode c g i uc).2.2) := by
  have hcond : ¬ (g.isModelInit = true) := by
    rw [hinit]
    simp
  have hgen : (if g.isModelInit then (some true, g, []) else initModel c g) = initModel c g :=
    if_neg hcond
  rcases hIM : initModel c g with ⟨r, g1, t1⟩
  unfold generateCode
  rw [hgen, hIM]
  cases r with
  | none =>
    refine ⟨fun hfalse => ?_, fun _ => ?_⟩
    · simp at hfalse
    · refine ⟨rfl, fun m p => ?_⟩
      have hng := initModel_no_genCall c g m p
      rw [hIM] at hng
      simpa using hng
  | some b =>
    refine ⟨fun _ => ?_, fun hnone => ?_⟩
    · cases hres : c.genResult g1.ollamaModel (getPrompt g1 i (effectiveCode uc)) <;>
        simp [hres]
    · simp at hnone

theorem claim2_witness :
    NetCall.genCall (initModel clientModelMissing genUninit).2.1.ollamaModel
        (getPrompt (initModel clientModelMissing genUninit).2.1 "i" (effectiveCode none))
      ∈ (generateCode clientModelMissing genUninit "i" none).2.2 :=
  (claim2_unavailable_no_shortcircuit clientModelMissing genUninit "i" none rfl).1 rfl

/-- C3: evaluation at the failing input — `genUninit` (flag unset, as after
construction while the service was down) against `clientReady` (service up,
default model listed).  The first readiness attempt succeeds, but the flag
stays unset after `generate_code` (its result is discarded at
`generator.py:178`), so the two following readiness checks perform one
availability probe each: two probes, where the claim allows at most one. -/
theorem claim3_readiness_not_latched :
    (initModel clientReady genUninit).fst = some true
    ∧ runGen1.2.1.isModelInit = false
    ∧ probeCount runGen2.2.2 + probeCount runGen3.2.2 = 2
    ∧ ¬ (probeCount runGen2.2.2 + probeCount runGen3.2.2 ≤ 1) := by
  refine ⟨by decide, by decide, by decide, by decide⟩

/-- C4: when the configured model is neither present at the endpoint nor
pullable and the default model is present, the readiness attempt
(`_init_model`) returns true and the current model is switched to the
default model. -/
theorem claim4_model_fallback (c : Client) (g : OllamaCodeGenerator) (names : List String)
    (hlist : c.listResult = some names)
    (hne : g.ollamaModel ≠ DEFAULT_MODEL)
    (habs : g.ollamaModel ∉ names)
    (hpull : c.pullSucceeds g.ollamaModel = false)
    (hdef : DEFAULT_MODEL ∈ names) :
    (initModel c g).fst = some true
    ∧ (initModel c g).2.1.ollamaModel = DEFAULT_MODEL := by
  simp [initModel, isModelAvailable, getAvailableModelNames, hlist, habs, hpull, hne, hdef]

theorem claim4_witness :
    (initModel clientGhost genGhost).fst = some true
    ∧ (initModel clientGhost genGhost).2.1.ollamaModel = DEFAULT_MODEL :=
  claim4_model_fallback clientGhost genGhost ["llama3.2:1b"] rfl (by decide) (by decide)
    rfl (by decide)

/-- C7, counterexample: when the availability query errors, the code does
not attempt a pull — `is_model_available` propagates the exception (the
query is outside the `try` block), contradicting the claim that any
failure to confirm presence leads to a pull attempt. -/
theorem claim7_counterexample :
    (isModelAvailable clientListRaises "m").fst = none
    ∧ NetCall.pullCall "m" ∉ (isModelAvailable clientListRaises "m").snd := by
  refine ⟨rfl, by decide⟩

/-- C7, amended: a query that reports the model as missing leads to a pull
attempt, with `is_model_available` returning true on pull success and
false on pull failure rather than raising; a query that errors propagates
the error without attempting a pull. -/
theorem claim7_pull_on_missing (c : Client) (m : String) :
    (∀ names, c.listResult = some names → m ∉ names →
      (isModelAvailable c m).fst = some (c.pullSucceeds m)
      ∧ NetCall.pullCall m ∈ (isModelAvailable c m).snd)
    ∧ (c.listResult = none →
      (isModelAvailable c m).fst = none
      ∧ ∀ m' : String, NetCall.pullCall m' ∉ (isModelAvailable c m).snd) := by
  constructor
  · intro names hlist habs
    cases hp : c.pullSucceeds m <;>
      simp [isModelAvailable, getAvailableModelNames, hlist, habs, hp]
  · intro hlist
    simp [isModelAvailable, getAvailableModelNames, hlist]

theorem claim7_witness :
    (isModelAvailable clientModelMissing "m").fst = some false
    ∧ NetCall.pullCall "m" ∈ (isModelAvailable clientModelMissing "m").snd := by
  have h := (claim7_pull_on_missing clientModelMissing "m").1 [] rfl (by decide)
  simpa using h

theorem generateCode_raise (c : Client) (g : OllamaCodeGenerator) (i : String)
    (uc : Option String) (g1 : OllamaCodeGenerator) (t1 : List NetCall)
    (hstep : (if g.isModelInit then (some true, g, []) else initModel c g)
      = ((none : Option Bool), g1, t1)) :
    generateCode c g i uc = (none, g1, t1) := by
  unfold generateCode
  rw [hstep]

theorem generateCode_go (c : Client) (g : OllamaCodeGenerator) (i : String)
    (uc : Option String) (b : Bool) (g1 : OllamaCodeGenerator) (t1 : List NetCall)
    (hstep : (if g.isModelInit then (some true, g, []) else initModel c g) = (some b, g1, t1)) :
    generateCode c g i uc =
      match c.genResult g1.ollamaModel (getPrompt g1 i (effectiveCode uc)) with
      | none =>
        (none, g1, t1 ++ [NetCall.genCall g1.ollamaModel (getPrompt g1 i (effectiveCode uc))])
      | some responseText =>
        (some (responseText, extractCodeStr responseText), g1,
          t1 ++ [NetCall.genCall g1.ollamaModel (getPrompt g1 i (effectiveCode uc))]) := by
  unfold generateCode
  rw [hstep]

theorem initModel_promptFn_obs (c : Client) (gm : String) (gi : Bool)
    (p q : Option (String → String → Option String)) :
    (initModel c { ollamaModel := gm, isModelInit := gi, customPromptFn := q }).fst
      = (initModel c { ollamaModel := gm, isModelInit := gi, customPromptFn := p }).fst
    ∧ (initModel c { ollamaModel := gm, isModelInit := gi, customPromptFn := q }).2.1
      = { (initModel c { ollamaModel := gm, isModelInit := gi, customPromptFn := p }).2.1 with
          customPromptFn := q }
    ∧ (initModel c { ollamaModel := gm, isModelInit := gi, customPromptFn := q }).2.2
      = (initModel c { ollamaModel := gm, isModelInit := gi, customPromptFn := p }).2.2 := by
  cases hl : c.listResult with
  | none => simp [initModel, isModelAvailable, getAvailableModelNames, hl]
  | some names =>
    by_cases hmem : gm ∈ names
    · simp [initModel, isModelAvailable, getAvailableModelNames, hl, hmem]
    · cases hp : c.pullSucceeds gm with
      | true => simp [initModel, isModelAvailable, getAvailableModelNames, hl, hmem, hp]
      | false =>
        by_cases hd : gm = DEFAULT_MODEL
        · subst hd
          simp [initModel, isModelAvailable, getAvailableModelNames, hl, hmem, hp]
        · by_cases hmem2 : DEFAULT_MODEL ∈ names
          · simp [initModel, isModelAvailable, getAvailableModelNames, hl, hmem, hp, hd, hmem2]
          · cases hp2 : c.pullSucceeds DEFAULT_MODEL <;>
              simp [initModel, isModelAvailable, getAvailableModelNames, hl, hmem, hp, hd, hmem2, hp2]

theorem initModel_preserves_promptFn (c : Client) (g : OllamaCodeGenerator) :
    (initModel c g).2.1.customPromptFn = g.customPromptFn := by
  rcases g with ⟨gm, gi, gf⟩
  cases hl : c.listResult with
  | none => simp [initModel, isModelAvailable, getAvailableModelNames, hl]
  | some names =>
    by_cases hmem : gm ∈ names
    · simp [initModel, isModelAvailable, getAvailableModelNames, hl, hmem]
    · cases hp : c.pullSucceeds gm with
      | true => simp [initModel, isModelAvailable, getAvailableModelNames, hl, hmem, hp]
      | false =>
        by_cases hd : gm = DEFAULT_MODEL
        · subst hd
          simp [initModel, isModelAvailable, getAvailableModelNames, hl, hmem, hp]
        · by_cases hmem2 : DEFAULT_MODEL ∈ names
          · simp [initModel, isModelAvailable, getAvailableModelNames, hl, hmem, hp, hd, hmem2]
          · cases hp2 : c.pullSucceeds DEFAULT_MODEL <;>
              simp [initModel, isModelAvailable, getAvailableModelNames, hl, hmem, hp, hd, hmem2, hp2]

/-- C8: when the custom prompt function raises on the invoked pair, the
generator falls back to the default prompt builder for that call and the
exception never reaches the caller of `generate_code`: the call's outcome
and network trace are identical to those of the same generator constructed
without a custom prompt function. -/
theorem claim8_prompt_fallback (c : Client) (gm : String) (gi : Bool)
    (f : String → String → Option String) (i : String) (uc : Option String)
    (hraise : f i (effectiveCode uc) = none) :
    (generateCode c { ollamaModel := gm, isModelInit := gi, customPromptFn := some f } i uc).fst
      = (generateCode c { ollamaModel := gm, isModelInit := gi, customPromptFn := none } i uc).fst
    ∧ (generateCode c { ollamaModel := gm, isModelInit := gi, customPromptFn := some f } i uc).2.2
      = (generateCode c { ollamaModel := gm, isModelInit := gi, customPromptFn := none } i uc).2.2 := by
  cases gi with
  | true =>
    have hp1 : getPrompt { ollamaModel := gm, isModelInit := true, customPromptFn := some f }
        i (effectiveCode uc) = defaultPromptFn i (effectiveCode uc) := by
      simp [getPrompt, hraise]
    have hp2 : getPrompt { ollamaModel := gm, isModelInit := true, customPromptFn := none }
        i (effectiveCode uc) = defaultPromptFn i (effectiveCode uc) := by
      simp [getPrompt]
    rw [generateCode_go c { ollamaModel := gm, isModelInit := true, customPromptFn := some f }
        i uc true _ [] rfl,
      generateCode_go c { ollamaModel := gm, isModelInit := true, customPromptFn := none }
        i uc true _ [] rfl,
      hp1, hp2]
    cases hres : c.genResult
        ({ ollamaModel := gm, isModelInit := true, customPromptFn := some f }
          : OllamaCodeGenerator).ollamaModel
        (defaultPromptFn i (effectiveCode uc)) <;>
      exact ⟨rfl, rfl⟩
  | false =>
    rcases hIM : initModel c { ollamaModel := gm, isModelInit := false, customPromptFn := some f }
      with ⟨r, g1, t1⟩
    have hIMn : initModel c { ollamaModel := gm, isModelInit := false, customPromptFn := none }
        = (r, { g1 with customPromptFn := none }, t1) := by
      obtain ⟨h1, h2, h3⟩ := initModel_promptFn_obs c gm false (some f) none
      rw [hIM] at h1 h2 h3
      exact Prod.ext h1 (Prod.ext h2 h3)
    have hg1f : g1.customPromptFn = some f := by
      have hpf := initModel_preserves_promptFn c
        { ollamaModel := gm, isModelInit := false, customPromptFn := some f }
      rw [hIM] at hpf
      exact hpf
    have hp1 : getPrompt g1 i (effectiveCode uc) = defaultPromptFn i (effectiveCode uc) := by
      simp [getPrompt, hg1f, hraise]
    have hp2 : getPrompt { g1 with customPromptFn := none } i (effectiveCode uc)
        = defaultPromptFn i (effectiveCode uc) := by
      simp [getPrompt]
    have hmodel : ({ g1 with customPromptFn := none } : OllamaCodeGenerator).ollamaModel
        = g1.ollamaModel := rfl
    cases r with
    | none =>
      rw [generateCode_raise c { ollamaModel := gm, isModelInit := false, customPromptFn := some f }
          i uc g1 t1 hIM,
        generateCode_raise c { ollamaModel := gm, isModelInit := false, customPromptFn := none }
          i uc { g1 with customPromptFn := none } t1 hIMn]
      exact ⟨rfl, rfl⟩
    | some b =>
      rw [generateCode_go c { ollamaModel := gm, isModelInit := false, customPromptFn := some f }
          i uc b g1 t1 hIM,
        generateCode_go c { ollamaModel := gm, isModelInit := false, customPromptFn := none }
          i uc b { g1 with customPromptFn := none } t1 hIMn,
        hp1, hp2, hmodel]
      cases hres : c.genResult g1.ollamaModel (defaultPromptFn i (effectiveCode uc)) <;>
        exact ⟨rfl, rfl⟩

theorem claim8_witness :
    (generateCode clientReady
        { ollamaModel := DEFAULT_MODEL, isModelInit := true,
          customPromptFn := some (fun _ _ => none) } "i" none).fst
      = (generateCode clientReady
          { ollamaModel := DEFAULT_MODEL, isModelInit := true, customPromptFn := none }
          "i" none).fst :=
  (claim8_prompt_fallback clientReady DEFAULT_MODEL true (fun _ _ => none) "i" none rfl).1

/-- C10: constructing the generator with an empty-string model name is
treated the same as omitting it — the default model is selected, and
`get_current_model_name` returns the default immediately after
construction in both cases. -/
theorem claim10_empty_model_default (c : Client)
    (pf : Option (String → String → Option String)) :
    mkGenerator c none pf = mkGenerator c (some "") pf
    ∧ (∀ g, (mkGenerator c none pf).fst = some g →
        getCurrentModelName g = "llama3.2:1b") := by
  constructor
  · rfl
  · intro g hg
    simp only [mkGenerator] at hg
    cases hl : c.listResult with
    | none =>
      simp [isServiceAvailable, getAvailableModelNames, hl] at hg
      rw [← hg]
      rfl
    | some names =>
      simp only [isServiceAvailable, getAvailableModelNames, hl] at hg
      rcases hIM : initModel c
          { ollamaModel := DEFAULT_MODEL, isModelInit := false, customPromptFn := pf }
        with ⟨r, g1, t2⟩
      have hg1 : g1 = { ollamaModel := DEFAULT_MODEL, isModelInit := false, customPromptFn := pf } := by
        have := initModel_keeps_default c
          { ollamaModel := DEFAULT_MODEL, isModelInit := false, customPromptFn := pf } rfl
        rw [hIM] at this
        exact this
      rw [hIM] at hg
      cases r with
      | none => simp at hg
      | some b =>
        simp at hg
        rw [← hg, hg1]
        rfl

theorem claim10_witness :
    (mkGenerator clientListRaises none none).fst = (mkGenerator clientListRaises (some "") none).fst
    ∧ getCurrentModelName genUninit = "llama3.2:1b" := by
  have h := claim10_empty_model_default clientListRaises none
  exact ⟨by rw [h.1], h.2 genUninit rfl⟩

/-- C9: `_extract_code` always returns the input itself or a contiguous
substring of it — no reordering, duplication or fabrication; totality of
the Lean definition reflects that the Python code cannot raise. -/
theorem claim9_extract_is_substring (s : Str) : extractCode s <:+: s := by
  unfold extractCode
  split
  · exact List.infix_rfl
  · refine (stripNL_isInfix _).trans ?_
    unfold rawSpan
    split
    · exact doubleSplit_isInfix s PYTHON_START_TOKEN CODE_TOKEN (by decide) (by decide)
    · exact doubleSplit_isInfix s CODE_TOKEN CODE_TOKEN (by decide) (by decide)

end CodeAssistant
